import Mathlib

/-!
# ToDo List (`ToDo List/script.js`): model and verified properties

A shallow embedding of the to-do list script.  JavaScript strings are
sequences of UTF-16 code units; a code unit is a natural number here, so a
string is a `List Nat` (every JavaScript string is such a list, with all
entries below 65536).  The module-level variables `todos` and `filter`, the
value of the text field, the `localStorage` slot `mini_todos_v1` and the two
DOM outputs of `render` form the explicit state.  The clock and the random
source read by `uid` are explicit arguments.  A handler that can raise returns
an `Except`.

Library functions the script calls (`trim`, `replace`, `slice`, `toString`,
`JSON.stringify`, `JSON.parse`) are modelled after their ECMAScript
definitions.  Focus, CSS classes and the markup `startEdit` writes into a row
are not part of the state.
-/

namespace Todo

/-! ## Strings -/

/-- A JavaScript string: its UTF-16 code units. -/
abbrev JSString := List Nat

/-- UTF-16 encoding of one Unicode scalar value. -/
def utf16 (c : Char) : List Nat :=
  if c.toNat < 65536 then [c.toNat]
  else [55296 + (c.toNat - 65536) / 1024, 56320 + (c.toNat - 65536) % 1024]

/-- The JavaScript string written as a literal. -/
def str (s : String) : JSString := s.toList.flatMap utf16

/-- WhiteSpace and LineTerminator code units, the ones `String.prototype.trim`
strips. -/
def isWhiteSpace (c : Nat) : Bool :=
  c == 9 || c == 10 || c == 11 || c == 12 || c == 13 || c == 32 || c == 160 ||
  c == 5760 || (8192 ≤ c && c ≤ 8202) || c == 8232 || c == 8233 || c == 8239 ||
  c == 8287 || c == 12288 || c == 65279

/-- Library `String.prototype.trim`. -/
def trim (s : JSString) : JSString :=
  ((s.dropWhile isWhiteSpace).reverse.dropWhile isWhiteSpace).reverse

/-- Digit `d` of a radix up to 36, as `Number.prototype.toString(radix)` writes
it: `0`-`9`, then lowercase `a`-`z`. -/
def digitChar (d : Nat) : Nat := if d < 10 then 48 + d else 87 + d

/-- Digits of `n` in `radix`, most significant first, prepended to `acc`. -/
def toRadixAux (radix : Nat) : Nat → Nat → List Nat → List Nat
  | 0, _, acc => acc
  | fuel + 1, n, acc =>
    if n < radix then digitChar n :: acc
    else toRadixAux radix fuel (n / radix) (digitChar (n % radix) :: acc)

/-- Library `Number.prototype.toString(radix)` on a non-negative integer. -/
def natToString (radix n : Nat) : JSString := toRadixAux radix (n + 1) n []

/-- Value of a digit written by `digitChar`: `0`-`9` are 0 to 9, `a`-`z` are 10
to 35. -/
def digitVal (c : Nat) : Nat := if c < 58 then c - 48 else c - 87

/-- The number a numeral denotes in `radix`, most significant digit first.  It
reads back what `natToString` writes (`natToString_spec`). -/
def fromRadix (radix : Nat) (s : JSString) : Nat :=
  s.foldl (fun a c => a * radix + digitVal c) 0

/-- Library `String.prototype.slice(a, b)` for `0 ≤ a ≤ b`. -/
def slice (s : JSString) (a b : Nat) : JSString := (s.drop a).take (b - a)

/-! ## Data model -/

/-- One entry of `todos`: `{id, text, done}`. -/
structure Task where
  id : JSString
  text : JSString
  done : Bool
  deriving DecidableEq

/-! ## JSON -/

/-- A value `JSON.parse` returns.  A number is kept as the lexeme it was read
from, an object as its members in the order read. -/
inductive Json where
  | null
  | bool (b : Bool)
  | num (lexeme : JSString)
  | str (s : JSString)
  | arr (items : List Json)
  | obj (members : List (JSString × Json))

/-- Leading surrogate code unit. -/
def isHighSurrogate (c : Nat) : Bool := 55296 ≤ c && c ≤ 56319

/-- Trailing surrogate code unit. -/
def isLowSurrogate (c : Nat) : Bool := 56320 ≤ c && c ≤ 57343

/-- `UnicodeEscape`: backslash, `u` and four lowercase hexadecimal digits. -/
def unicodeEscape (c : Nat) : JSString :=
  [92, 117, digitChar (c / 4096 % 16), digitChar (c / 256 % 16),
    digitChar (c / 16 % 16), digitChar (c % 16)]

/-- `QuoteJSONString` without the surrounding quotes: the two-character
escapes, `UnicodeEscape` for the other control characters and for unpaired
surrogates, every other code point as is. -/
def quoteBody : JSString → JSString
  | [] => []
  | c :: rest =>
    if c = 8 then 92 :: 98 :: quoteBody rest
    else if c = 9 then 92 :: 116 :: quoteBody rest
    else if c = 10 then 92 :: 110 :: quoteBody rest
    else if c = 12 then 92 :: 102 :: quoteBody rest
    else if c = 13 then 92 :: 114 :: quoteBody rest
    else if c = 34 then 92 :: 34 :: quoteBody rest
    else if c = 92 then 92 :: 92 :: quoteBody rest
    else if c < 32 then unicodeEscape c ++ quoteBody rest
    else if isHighSurrogate c then
      match rest with
      | [] => unicodeEscape c
      | d :: rest1 =>
        if isLowSurrogate d then c :: d :: quoteBody rest1
        else unicodeEscape c ++ quoteBody (d :: rest1)
    else if isLowSurrogate c then unicodeEscape c ++ quoteBody rest
    else c :: quoteBody rest

/-- `QuoteJSONString`. -/
def quote (s : JSString) : JSString := 34 :: quoteBody s ++ [34]

/-- `JSON.stringify` of one `{id, text, done}` object: the keys in creation
order, no white space. -/
def stringifyTask (t : Task) : JSString :=
  str "\x7b\"id\":" ++ quote t.id ++ str ",\"text\":" ++ quote t.text ++
    str ",\"done\":" ++ (if t.done then str "true" else str "false") ++ str "\x7d"

/-- The elements of an array, separated by commas. -/
def stringifyItems : List Task → JSString
  | [] => []
  | [t] => stringifyTask t
  | t :: u :: rest => stringifyTask t ++ 44 :: stringifyItems (u :: rest)

/-- `JSON.stringify(todos)` for an array of `{id, text, done}` objects whose
`id` and `text` are strings and whose `done` is a boolean. -/
def JSON_stringify (todos : List Task) : JSString :=
  91 :: stringifyItems todos ++ [93]

/-- The JavaScript object a task is. -/
def Task.toJson (t : Task) : Json :=
  Json.obj [(Todo.str "id", Json.str t.id), (Todo.str "text", Json.str t.text),
    (Todo.str "done", Json.bool t.done)]

/-- The JavaScript array a task list is. -/
def ofTasks (l : List Task) : Json := Json.arr (l.map Task.toJson)

/-- JSON white space: space, tab, line feed, carriage return. -/
def skipWs : JSString → JSString
  | [] => []
  | c :: rest => if c = 32 ∨ c = 9 ∨ c = 10 ∨ c = 13 then skipWs rest else c :: rest

/-- Value of a hexadecimal digit, either case. -/
def hexVal (c : Nat) : Option Nat :=
  if 48 ≤ c ∧ c ≤ 57 then some (c - 48)
  else if 97 ≤ c ∧ c ≤ 102 then some (c - 87)
  else if 65 ≤ c ∧ c ≤ 70 then some (c - 55)
  else none

/-- The code unit written by four hexadecimal digits. -/
def hex4 (a b c d : Nat) : Option Nat :=
  match hexVal a, hexVal b, hexVal c, hexVal d with
  | some x, some y, some z, some w => some (((x * 16 + y) * 16 + z) * 16 + w)
  | _, _, _, _ => none

/-- The character a two-character escape stands for. -/
def unescape (e : Nat) : Option Nat :=
  if e = 34 then some 34
  else if e = 92 then some 92
  else if e = 47 then some 47
  else if e = 98 then some 8
  else if e = 102 then some 12
  else if e = 110 then some 10
  else if e = 114 then some 13
  else if e = 116 then some 9
  else none

/-- The characters of a JSON string after its opening quote, up to and
including the closing quote; returns the decoded string and the rest. -/
def parseStringBody : JSString → Option (JSString × JSString)
  | [] => none
  | c :: rest =>
    if c = 34 then some ([], rest)
    else if c = 92 then
      match rest with
      | [] => none
      | e :: rest1 =>
        if e = 117 then
          match rest1 with
          | a :: b :: c2 :: d :: rest2 =>
            match hex4 a b c2 d with
            | none => none
            | some x => (parseStringBody rest2).map fun p => (x :: p.1, p.2)
          | _ => none
        else
          match unescape e with
          | none => none
          | some x => (parseStringBody rest1).map fun p => (x :: p.1, p.2)
    else if c < 32 then none
    else (parseStringBody rest).map fun p => (c :: p.1, p.2)

/-- Rest of the input after the literal `lit`, when the input starts with it. -/
def stripLit : JSString → JSString → Option JSString
  | [], input => some input
  | _ :: _, [] => none
  | c :: cs, x :: xs => if c = x then stripLit cs xs else none

/-- Decimal digit. -/
def isDigit (c : Nat) : Bool := 48 ≤ c && c ≤ 57

/-- Optional exponent part of a number: `e` or `E`, an optional sign and at
least one digit. -/
def parseExp (acc input : JSString) : Option (JSString × JSString) :=
  match input with
  | [] => some (acc, [])
  | e :: r =>
    if e = 101 ∨ e = 69 then
      match r with
      | [] => none
      | s :: r1 =>
        if s = 43 ∨ s = 45 then
          if (r1.span isDigit).1 = [] then none
          else some (acc ++ e :: s :: (r1.span isDigit).1, (r1.span isDigit).2)
        else
          if ((s :: r1).span isDigit).1 = [] then none
          else some (acc ++ e :: ((s :: r1).span isDigit).1, ((s :: r1).span isDigit).2)
    else some (acc, e :: r)

/-- Optional fraction part of a number, a dot and at least one digit, then the
exponent part. -/
def parseFrac (acc input : JSString) : Option (JSString × JSString) :=
  match input with
  | [] => some (acc, [])
  | p :: r =>
    if p = 46 then
      if (r.span isDigit).1 = [] then none
      else parseExp (acc ++ p :: (r.span isDigit).1) (r.span isDigit).2
    else parseExp acc (p :: r)

/-- Integer part of a number, a single zero or a non-zero digit followed by
digits, then the fraction part. -/
def parseInt (acc input : JSString) : Option (JSString × JSString) :=
  match input with
  | [] => none
  | c :: r =>
    if c = 48 then parseFrac (acc ++ [48]) r
    else if 49 ≤ c ∧ c ≤ 57 then parseFrac (acc ++ c :: (r.span isDigit).1) (r.span isDigit).2
    else none

/-- A JSON number: its lexeme and the rest of the input. -/
def parseNumber (input : JSString) : Option (JSString × JSString) :=
  match input with
  | [] => none
  | c :: r => if c = 45 then parseInt [45] r else parseInt [] (c :: r)

mutual
/-- A JSON value, after optional white space. -/
def parseValue : Nat → JSString → Option (Json × JSString)
  | 0, _ => none
  | fuel + 1, input =>
    match skipWs input with
    | [] => none
    | c :: rest =>
      if c = 34 then (parseStringBody rest).map fun p => (Json.str p.1, p.2)
      else if c = 91 then
        match skipWs rest with
        | [] => none
        | d :: rest1 =>
          if d = 93 then some (Json.arr [], rest1)
          else (parseElems fuel (d :: rest1)).map fun p => (Json.arr p.1, p.2)
      else if c = 123 then
        match skipWs rest with
        | [] => none
        | d :: rest1 =>
          if d = 125 then some (Json.obj [], rest1)
          else (parseMembers fuel (d :: rest1)).map fun p => (Json.obj p.1, p.2)
      else if c = 116 then (stripLit (Todo.str "rue") rest).map fun r => (Json.bool true, r)
      else if c = 102 then (stripLit (Todo.str "alse") rest).map fun r => (Json.bool false, r)
      else if c = 110 then (stripLit (Todo.str "ull") rest).map fun r => (Json.null, r)
      else (parseNumber (c :: rest)).map fun p => (Json.num p.1, p.2)
/-- The elements of a non-empty array, up to and including the closing
bracket. -/
def parseElems : Nat → JSString → Option (List Json × JSString)
  | 0, _ => none
  | fuel + 1, input =>
    match parseValue fuel input with
    | none => none
    | some (v, r) =>
      match skipWs r with
      | [] => none
      | c :: r1 =>
        if c = 44 then (parseElems fuel r1).map fun p => (v :: p.1, p.2)
        else if c = 93 then some ([v], r1)
        else none
/-- The members of a non-empty object, up to and including the closing
brace. -/
def parseMembers : Nat → JSString → Option (List (JSString × Json) × JSString)
  | 0, _ => none
  | fuel + 1, input =>
    match skipWs input with
    | [] => none
    | q :: r0 =>
      if q = 34 then
        match parseStringBody r0 with
        | none => none
        | some (k, r1) =>
          match skipWs r1 with
          | [] => none
          | c :: r2 =>
            if c = 58 then
              match parseValue fuel r2 with
              | none => none
              | some (v, r3) =>
                match skipWs r3 with
                | [] => none
                | d :: r4 =>
                  if d = 44 then (parseMembers fuel r4).map fun p => ((k, v) :: p.1, p.2)
                  else if d = 125 then some ([(k, v)], r4)
                  else none
            else none
      else none
end

/-- Library `JSON.parse`: `none` stands for the `SyntaxError` it throws.  The
fuel, one more than the length of the text, is never exhausted on a valid
text: every nested call follows at least one consumed character
(`JSON_parse_of_fuel`). -/
def JSON_parse (raw : JSString) : Option Json :=
  match parseValue (raw.length + 1) raw with
  | none => none
  | some (v, r) => if skipWs r = [] then some v else none

/-! ## State -/

/-- What a handler can raise. -/
inductive JSError where
  | referenceError (name : String)
  | typeError
  deriving DecidableEq

/-- The program state: the globals `todos` and `filter`, `input.value`, the
`localStorage` slot under `STORAGE_KEY` (`none` when the key is absent),
`list.innerHTML` and `countEl.textContent`. -/
structure State where
  todos : List Task
  filter : JSString
  inputValue : JSString
  storage : Option JSString
  listHTML : JSString
  countText : JSString
  deriving DecidableEq

/-! ## `escapeHtml` -/

/-- Library `String.prototype.replace(/c/g, r)` for a one-character pattern:
every occurrence of code unit `c` is replaced by `r`, left to right. -/
def replaceAll (c : Nat) (r : JSString) : JSString → JSString
  | [] => []
  | x :: xs => if x = c then r ++ replaceAll c r xs else x :: replaceAll c r xs

/-- The four chained replacements of `escapeHtml`, in the order of the source:
first the ampersand, then less-than, greater-than and the double quote. -/
def escapeHtml (s : JSString) : JSString :=
  replaceAll 34 (str "&quot;")
    (replaceAll 62 (str "&gt;")
      (replaceAll 60 (str "&lt;")
        (replaceAll 38 (str "&amp;") s)))


/-- What `escapeHtml` writes for one code unit, seen as a single pass: the
entity for the ampersand, less-than, greater-than and double quote, the code
unit itself otherwise.  `escapeHtml_eq_flatMap` proves the four chained
replacements equal to this pass. -/
def escChar (x : Nat) : JSString :=
  if x = 38 then str "&amp;"
  else if x = 60 then str "&lt;"
  else if x = 62 then str "&gt;"
  else if x = 34 then str "&quot;"
  else [x]

/-- The four entities `escapeHtml` writes. -/
def entities : List JSString := [str "&amp;", str "&lt;", str "&gt;", str "&quot;"]

/-! ## Persistence -/

/-- `save()`: writes `JSON.stringify(todos)` to the slot (the write is taken to
succeed). -/
def save (s : State) : State := { s with storage := some (JSON_stringify s.todos) }

/-- `load()`: the value it assigns to `todos`, for a given content of the slot.
A missing key reads as `null` and an empty string is falsy, both give `[]`; a
`SyntaxError` of `JSON.parse` is caught and gives `[]`; anything `JSON.parse`
accepts is assigned as it is.  A task list `l` is the value `ofTasks l`. -/
def load (slot : Option JSString) : Json :=
  match slot with
  | none => Json.arr []
  | some raw =>
    if raw = [] then Json.arr []
    else
      match JSON_parse raw with
      | some v => v
      | none => Json.arr []

/-! ## Rendering -/

/-- The tasks `render` shows under a filter: `todos`, replaced by the active
ones when the filter is `"active"` and by the completed ones when it is
`"completed"`. -/
def visible (filter : JSString) (todos : List Task) : List Task :=
  let v0 := todos
  let v1 := if filter = str "active" then todos.filter (fun t => !t.done) else v0
  if filter = str "completed" then todos.filter (fun t => t.done) else v1

/-- The count `render` shows: the number of tasks that are not done. -/
def remaining (todos : List Task) : Nat := (todos.filter (fun t => !t.done)).length

/-- The markup of one row, the template literal of `render`. -/
def rowHtml (t : Task) : JSString :=
  str "\n        <div class=\"item fade " ++ (if t.done then str "completed" else str "") ++
  str "\" data-id=\"" ++ t.id ++
  str "\">\n          <div class=\"check\" role=\"button\" aria-label=\"" ++
  (if t.done then str "Mark as active" else str "Mark as done") ++
  str "\">\n            " ++ (if t.done then str "✓" else str "") ++
  str "\n          </div>\n          <div class=\"text\" title=\"" ++ escapeHtml t.text ++
  str "\">" ++ escapeHtml t.text ++
  str "</div>\n          <div class=\"actions\" aria-hidden=\"true\">\n            <button class=\"icon-btn\" title=\"Edit (double click)\">✏️</button>\n            <button class=\"icon-btn\" data-action=\"delete\" title=\"Delete\">🗑️</button>\n          </div>\n        </div>\n      "

/-- The part of a row before the escaped text of the tooltip: it depends on
`done` and `id` only. -/
def rowOpen (done : Bool) (id : JSString) : JSString :=
  str "\n        <div class=\"item fade " ++ (if done then str "completed" else str "") ++
  str "\" data-id=\"" ++ id ++
  str "\">\n          <div class=\"check\" role=\"button\" aria-label=\"" ++
  (if done then str "Mark as active" else str "Mark as done") ++
  str "\">\n            " ++ (if done then str "✓" else str "") ++
  str "\n          </div>\n          <div class=\"text\" title=\""

/-- The part of a row after the escaped text of the body: a constant. -/
def rowClose : JSString :=
  str "</div>\n          <div class=\"actions\" aria-hidden=\"true\">\n            <button class=\"icon-btn\" title=\"Edit (double click)\">✏️</button>\n            <button class=\"icon-btn\" data-action=\"delete\" title=\"Delete\">🗑️</button>\n          </div>\n        </div>\n      "

/-- The placeholder shown when `todos` is empty. -/
def placeholderHtml : JSString :=
  str "<div style=\"padding:20px; color:var(--muted); text-align:center\">No todos yet — add something!</div>"

/-- `render()`: the rows of the visible tasks joined, the count label, and the
placeholder instead of the rows when `todos` is empty. -/
def render (s : State) : State :=
  let rows := ((visible s.filter s.todos).map rowHtml).flatten
  let n := remaining s.todos
  { s with
    listHTML := if s.todos.length = 0 then placeholderHtml else rows
    countText := natToString 10 n ++ str " item" ++ (if n ≠ 1 then str "s" else str "") }

/-- `reload()`: `save()` then `render()`. -/
def reload (s : State) : State := render (save s)

/-! ## Operations -/

/-- `uid()`: `Date.now()` in radix 36 followed by characters 2 to 5 of
`Math.random().toString(36)`.  `now` is the clock reading in milliseconds and
`rnd` the string `Math.random().toString(36)`. -/
def uid (now : Nat) (rnd : JSString) : JSString := natToString 36 now ++ slice rnd 2 6

/-- `onAdd()`: nothing but a refocus when the trimmed field is empty (`uid` is
not called then); otherwise the new task is put in front, the field is cleared
and the state is saved and rendered. -/
def onAdd (now : Nat) (rnd : JSString) (s : State) : State :=
  let text := trim s.inputValue
  if text = [] then s
  else reload { s with
    todos := { id := uid now rnd, text := text, done := false } :: s.todos
    inputValue := [] }

/-- `toggleDone(id)`. -/
def toggleDone (id : JSString) (s : State) : State :=
  reload { s with
    todos := s.todos.map (fun t => if t.id = id then { t with done := !t.done } else t) }

/-- `removeTodo(id)`: the script calls a function of this name in two places
and declares none, so the call raises a `ReferenceError`; it is the first
statement of both paths, nothing has been changed when it raises. -/
def removeTodo (_id : JSString) (_s : State) : Except JSError State :=
  Except.error (JSError.referenceError "removeTodo")

/-- `finishEdit(id, newText)`. -/
def finishEdit (id newText : JSString) (s : State) : Except JSError State :=
  if newText = [] then removeTodo id s
  else Except.ok (reload { s with
    todos := s.todos.map (fun t => if t.id = id then { t with text := newText } else t) })

/-- `cancelEdit(itemEl)`. -/
def cancelEdit (s : State) : State := render s

/-- `onFilter(e)`, `f` being `e.currentTarget.dataset.filter`. -/
def onFilter (f : JSString) (s : State) : State := render { s with filter := f }

/-- `onClearCompleted()`. -/
def onClearCompleted (s : State) : State :=
  reload { s with todos := s.todos.filter (fun t => !t.done) }

/-- What `onListClick` reads from a click: the `data-id` of the enclosing
`.item` (`none` when the click is outside every row), whether the target is or
is inside a `.check`, the target's `data-action`, and the value of the row's
`.edit-input` (`none` when the row has none). -/
structure ClickEvent where
  itemId : Option JSString
  inCheck : Bool
  action : Option JSString
  editValue : Option JSString
  deriving DecidableEq

/-- `onListClick(e)`. -/
def onListClick (e : ClickEvent) (s : State) : Except JSError State :=
  match e.itemId with
  | none => Except.ok s
  | some id =>
    if e.inCheck then Except.ok (toggleDone id s)
    else if e.action = some (str "delete") then removeTodo id s
    else if e.action = some (str "save") then
      match e.editValue with
      | none => Except.error JSError.typeError
      | some v => finishEdit id (trim v) s
    else if e.action = some (str "cancel") then Except.ok (cancelEdit s)
    else Except.ok s

/-- The `keydown` handler `startEdit` installs on the edit field: Enter commits
the trimmed value, Escape cancels. -/
def onEditKeydown (key id value : JSString) (s : State) : Except JSError State :=
  if key = str "Enter" then finishEdit id (trim value) s
  else if key = str "Escape" then Except.ok (cancelEdit s)
  else Except.ok s

/-- The ids of a task list, in order. -/
def ids (l : List Task) : List JSString := l.map Task.id


/-! ## The list operations -/

@[simp] theorem save_todos (s : State) : (save s).todos = s.todos := rfl

@[simp] theorem render_todos (s : State) : (render s).todos = s.todos := rfl

@[simp] theorem reload_todos (s : State) : (reload s).todos = s.todos := rfl

theorem trim_nil : trim [] = [] := rfl

theorem ne_nil_of_trim_ne_nil {s : JSString} (h : trim s ≠ []) : s ≠ [] := by
  intro hs
  exact h (hs ▸ trim_nil)

@[simp] theorem toggleDone_todos (id : JSString) (s : State) :
    (toggleDone id s).todos =
      s.todos.map (fun t => if t.id = id then { t with done := !t.done } else t) := rfl

@[simp] theorem onClearCompleted_todos (s : State) :
    (onClearCompleted s).todos = s.todos.filter (fun t => !t.done) := rfl

theorem finishEdit_ok (id newText : JSString) (s : State) (h : newText ≠ []) :
    finishEdit id newText s = Except.ok (reload { s with
      todos := s.todos.map (fun t => if t.id = id then { t with text := newText } else t) }) := by
  simp [finishEdit, h]

/-- A map that rewrites only tasks whose id is `id`, and keeps their id, keeps
the list of ids. -/
theorem ids_map_update (id : JSString) (f : Task → Task) (hf : ∀ t, (f t).id = t.id)
    (l : List Task) : ids (l.map (fun t => if t.id = id then f t else t)) = ids l := by
  induction l with
  | nil => rfl
  | cons t l ih =>
    simp only [ids, List.map_cons] at ih ⊢
    rw [ih]
    by_cases h : t.id = id <;> simp [h, hf]

/-- A map that rewrites only tasks whose id is `id` is the identity on a list
without that id. -/
theorem map_update_absent (id : JSString) (f : Task → Task) (l : List Task)
    (h : id ∉ ids l) : l.map (fun t => if t.id = id then f t else t) = l := by
  induction l with
  | nil => rfl
  | cons t l ih =>
    simp only [ids, List.map_cons, List.mem_cons, not_or] at h ⊢
    rw [ih h.2, if_neg (fun e => h.1 e.symm)]

/-- A task whose id is not `id` stays where it is, unchanged. -/
theorem getElem_map_update (id : JSString) (f : Task → Task) (l : List Task) (i : Nat)
    (t : Task) (hi : l[i]? = some t) (ht : t.id ≠ id) :
    (l.map (fun t => if t.id = id then f t else t))[i]? = some t := by
  simp [hi, ht]

/-- C1: `onAdd` leaves the list as it is when the trimmed field is empty, and
otherwise puts the task made of the generated id, the trimmed text and
`done = false` in front of the unchanged list, so the length grows by one; adding
"Buy milk" to an empty list gives exactly that one task. -/
theorem onAdd_spec (now : Nat) (rnd : JSString) (s : State) :
    (onAdd now rnd s).todos =
      (if trim s.inputValue = [] then s.todos
       else { id := uid now rnd, text := trim s.inputValue, done := false } :: s.todos) ∧
    (onAdd now rnd s).todos.length =
      (if trim s.inputValue = [] then s.todos.length else s.todos.length + 1) ∧
    (onAdd now rnd { s with todos := [], inputValue := str "Buy milk" }).todos =
      [{ id := uid now rnd, text := str "Buy milk", done := false }] := by
  refine ⟨?_, ?_, ?_⟩
  · unfold onAdd
    by_cases h : trim s.inputValue = [] <;> simp [h]
  · unfold onAdd
    by_cases h : trim s.inputValue = [] <;> simp [h]
  · have h : trim (str "Buy milk") = str "Buy milk" := by decide
    have hne : str "Buy milk" ≠ [] := by decide
    simp [onAdd, h, hne]

/-- C7: `toggleDone(id)` keeps the length, the ids and the texts, negates `done`
on the tasks whose id is `id` and on no other, keeps every other task in its
place, is the identity when no task has that id, and undoes itself when applied
twice. -/
theorem toggleDone_spec (id : JSString) (s : State) :
    (toggleDone id s).todos.length = s.todos.length ∧
    ids (toggleDone id s).todos = ids s.todos ∧
    (toggleDone id s).todos.map Task.text = s.todos.map Task.text ∧
    (toggleDone id s).todos.map Task.done =
      s.todos.map (fun t => if t.id = id then !t.done else t.done) ∧
    (∀ (i : Nat) (t : Task), s.todos[i]? = some t → t.id ≠ id →
      (toggleDone id s).todos[i]? = some t) ∧
    (id ∉ ids s.todos → (toggleDone id s).todos = s.todos) ∧
    (toggleDone id (toggleDone id s)).todos = s.todos := by
  refine ⟨by simp, ?_, ?_, ?_, ?_, ?_, ?_⟩
  · exact ids_map_update id (fun t => { t with done := !t.done }) (fun _ => rfl) s.todos
  · rw [toggleDone_todos, List.map_map]
    apply List.map_congr_left
    intro t _
    by_cases h : t.id = id <;> simp [h]
  · rw [toggleDone_todos, List.map_map]
    apply List.map_congr_left
    intro t _
    by_cases h : t.id = id <;> simp [h]
  · intro i t hi ht
    exact getElem_map_update id (fun t => { t with done := !t.done }) s.todos i t hi ht
  · intro h
    exact map_update_absent id (fun t => { t with done := !t.done }) s.todos h
  · rw [toggleDone_todos, toggleDone_todos, List.map_map]
    conv_rhs => rw [← List.map_id s.todos]
    apply List.map_congr_left
    intro t _
    by_cases h : t.id = id
    · cases t
      simp_all
    · simp [h]

/-- Witness of C7 on a two-task list: the task with the id is negated, the
other one stays, and an absent id changes nothing. -/
theorem toggleDone_spec_witness :
    (toggleDone (str "a")
        ⟨[⟨str "a", str "x", false⟩, ⟨str "b", str "y", true⟩], str "all", [], none, [], []⟩).todos
      = [⟨str "a", str "x", true⟩, ⟨str "b", str "y", true⟩] ∧
    (toggleDone (str "c")
        ⟨[⟨str "a", str "x", false⟩, ⟨str "b", str "y", true⟩], str "all", [], none, [], []⟩).todos
      = [⟨str "a", str "x", false⟩, ⟨str "b", str "y", true⟩] :=
  ⟨by decide,
   (toggleDone_spec (str "c")
      ⟨[⟨str "a", str "x", false⟩, ⟨str "b", str "y", true⟩], str "all", [], none, [], []⟩).2.2.2.2.2.1
      (by decide)⟩

/-- C8: with a text whose trimmed form is not empty, `finishEdit(id, newText)`
returns normally; the new list has the same length, ids and `done` flags, the
text of the tasks whose id is `id` is `newText`, every other task is unchanged
and in its place, and the list is unchanged when no task has that id. -/
theorem finishEdit_spec (id newText : JSString) (s : State) (h : trim newText ≠ []) :
    ∃ s1, finishEdit id newText s = Except.ok s1 ∧
      s1.todos.length = s.todos.length ∧
      ids s1.todos = ids s.todos ∧
      s1.todos.map Task.done = s.todos.map Task.done ∧
      s1.todos.map Task.text = s.todos.map (fun t => if t.id = id then newText else t.text) ∧
      (∀ (i : Nat) (t : Task), s.todos[i]? = some t → t.id ≠ id → s1.todos[i]? = some t) ∧
      (id ∉ ids s.todos → s1.todos = s.todos) := by
  refine ⟨_, finishEdit_ok id newText s (ne_nil_of_trim_ne_nil h), by simp, ?_, ?_, ?_, ?_, ?_⟩
  · exact ids_map_update id (fun t => { t with text := newText }) (fun _ => rfl) s.todos
  · rw [reload_todos, List.map_map]
    apply List.map_congr_left
    intro t _
    by_cases h : t.id = id <;> simp [h]
  · rw [reload_todos, List.map_map]
    apply List.map_congr_left
    intro t _
    by_cases h : t.id = id <;> simp [h]
  · intro i t hi ht
    exact getElem_map_update id (fun t => { t with text := newText }) s.todos i t hi ht
  · intro h
    exact map_update_absent id (fun t => { t with text := newText }) s.todos h

/-- Witness of C8: editing task "a" of a two-task list to "milk". -/
theorem finishEdit_spec_witness :
    trim (str "milk") ≠ [] ∧
    ∃ s1, finishEdit (str "a") (str "milk")
        ⟨[⟨str "a", str "x", false⟩, ⟨str "b", str "y", true⟩], str "all", [], none, [], []⟩
        = Except.ok s1 ∧
      s1.todos.length = 2 ∧
      ids s1.todos = [str "a", str "b"] ∧
      s1.todos.map Task.done = [false, true] ∧
      s1.todos.map Task.text = [str "milk", str "y"] :=
  ⟨by decide,
   match finishEdit_spec (str "a") (str "milk")
      ⟨[⟨str "a", str "x", false⟩, ⟨str "b", str "y", true⟩], str "all", [], none, [], []⟩
      (by decide) with
   | ⟨s1, h1, h2, h3, h4, h5, _⟩ => ⟨s1, h1, h2, h3, h4, h5⟩⟩

/-- C9: `onClearCompleted` leaves exactly the tasks that are not done, in their
order: the result is that sub-sequence, it holds no done task, every task that
is not done is kept as it is, and the count `render` computes, and the label it
writes, are the same before and after. -/
theorem onClearCompleted_spec (s : State) :
    (onClearCompleted s).todos = s.todos.filter (fun t => !t.done) ∧
    (onClearCompleted s).todos.Sublist s.todos ∧
    (∀ t, t ∈ (onClearCompleted s).todos ↔ t ∈ s.todos ∧ t.done = false) ∧
    (onClearCompleted s).todos.filter (fun t => t.done) = [] ∧
    (onClearCompleted s).todos.filter (fun t => !t.done) = s.todos.filter (fun t => !t.done) ∧
    remaining (onClearCompleted s).todos = remaining s.todos ∧
    (onClearCompleted s).countText = (render s).countText := by
  have hr : remaining (onClearCompleted s).todos = remaining s.todos := by
    simp [remaining, List.filter_filter]
  refine ⟨rfl, ?_, ?_, ?_, ?_, hr, ?_⟩
  · simp
  · intro t
    simp [List.mem_filter]
  · simp [List.filter_filter]
  · simp [List.filter_filter]
  · rw [onClearCompleted_todos] at hr
    simp only [onClearCompleted, reload, render, save, hr]

/-- C10: the sequence `render` shows is the whole list under "all", the tasks
that are not done under "active" and the done tasks under "completed", each
time a sub-sequence of the list, so in the order of the list. -/
theorem visible_spec (l : List Task) :
    visible (str "all") l = l ∧
    visible (str "active") l = l.filter (fun t => !t.done) ∧
    visible (str "completed") l = l.filter (fun t => t.done) ∧
    (∀ t, t ∈ visible (str "active") l ↔ t ∈ l ∧ t.done = false) ∧
    (∀ t, t ∈ visible (str "completed") l ↔ t ∈ l ∧ t.done = true) ∧
    (visible (str "active") l).Sublist l ∧
    (visible (str "completed") l).Sublist l := by
  have h1 : str "all" ≠ str "active" := by decide
  have h2 : str "all" ≠ str "completed" := by decide
  have h3 : str "active" ≠ str "completed" := by decide
  have h4 : str "completed" ≠ str "active" := by decide
  have ha : visible (str "active") l = l.filter (fun t => !t.done) := by
    simp [visible, h3]
  have hc : visible (str "completed") l = l.filter (fun t => t.done) := by
    simp [visible]
  refine ⟨by simp [visible, h1, h2], ha, hc, ?_, ?_, ?_, ?_⟩
  · intro t
    rw [ha]
    simp [List.mem_filter]
  · intro t
    rw [hc]
    simp [List.mem_filter]
  · rw [ha]
    exact List.filter_sublist l
  · rw [hc]
    exact List.filter_sublist l


/-! ## Removal -/

/-- C2: on the one-task list holding task "a", the delete click on its row, the
save click with a blank edit field and the Enter key with a blank edit field
all end in the `ReferenceError` of the undeclared `removeTodo`: no path
completes, and the task is not removed. -/
theorem removeTodo_raises :
    onListClick ⟨some (str "a"), false, some (str "delete"), none⟩
        ⟨[⟨str "a", str "x", false⟩], str "all", [], none, [], []⟩
      = Except.error (JSError.referenceError "removeTodo") ∧
    onListClick ⟨some (str "a"), false, some (str "save"), some (str "  ")⟩
        ⟨[⟨str "a", str "x", false⟩], str "all", [], none, [], []⟩
      = Except.error (JSError.referenceError "removeTodo") ∧
    onEditKeydown (str "Enter") (str "a") (str "  ")
        ⟨[⟨str "a", str "x", false⟩], str "all", [], none, [], []⟩
      = Except.error (JSError.referenceError "removeTodo") := by
  refine ⟨rfl, rfl, rfl⟩

/-! ## `uid` -/

theorem digitVal_digitChar (d : Nat) (h : d < 36) : digitVal (digitChar d) = d := by
  unfold digitVal digitChar
  by_cases h10 : d < 10
  · rw [if_pos h10, if_pos (by omega)]
    omega
  · rw [if_neg h10, if_neg (by omega)]
    omega

theorem digitChar_range (d : Nat) (h : d < 36) :
    (48 ≤ digitChar d ∧ digitChar d ≤ 57) ∨ (97 ≤ digitChar d ∧ digitChar d ≤ 122) := by
  unfold digitChar
  by_cases h10 : d < 10
  · rw [if_pos h10]
    omega
  · rw [if_neg h10]
    omega

theorem fromRadix_append_singleton (radix : Nat) (ds : JSString) (c : Nat) :
    fromRadix radix (ds ++ [c]) = fromRadix radix ds * radix + digitVal c := by
  simp [fromRadix, List.foldl_append]

/-- With enough fuel, `toRadixAux` puts in front of `acc` a non-empty numeral
made of digits of the radix that denotes `n`. -/
theorem toRadixAux_spec (radix : Nat) (h2 : 2 ≤ radix) (h36 : radix ≤ 36) :
    ∀ (fuel n : Nat) (acc : JSString), n < fuel →
      ∃ ds, toRadixAux radix fuel n acc = ds ++ acc ∧ ds ≠ [] ∧
        (∀ c ∈ ds, (48 ≤ c ∧ c ≤ 57) ∨ (97 ≤ c ∧ c ≤ 122)) ∧ fromRadix radix ds = n := by
  intro fuel
  induction fuel with
  | zero =>
    intro n acc hn
    omega
  | succ fuel ih =>
    intro n acc hn
    rw [toRadixAux]
    by_cases hlt : n < radix
    · rw [if_pos hlt]
      refine ⟨[digitChar n], rfl, by simp, ?_, ?_⟩
      · intro c hc
        rw [List.mem_singleton] at hc
        rw [hc]
        exact digitChar_range n (by omega)
      · simp [fromRadix, digitVal_digitChar n (by omega)]
    · rw [if_neg hlt]
      have hdiv : n / radix < fuel := by
        have : n / radix < n := Nat.div_lt_self (by omega) (by omega)
        omega
      have hmod : n % radix < radix := Nat.mod_lt _ (by omega)
      obtain ⟨ds, hds, _, hrange, hval⟩ := ih (n / radix) (digitChar (n % radix) :: acc) hdiv
      refine ⟨ds ++ [digitChar (n % radix)], by rw [hds]; simp, by simp, ?_, ?_⟩
      · intro c hc
        rw [List.mem_append, List.mem_singleton] at hc
        rcases hc with hc | hc
        · exact hrange c hc
        · rw [hc]
          exact digitChar_range _ (by omega)
      · rw [fromRadix_append_singleton, hval, digitVal_digitChar _ (by omega)]
        exact Nat.div_add_mod' n radix

/-- What `natToString` returns, for a radix from 2 to 36: a non-empty numeral
of digits `0`-`9`, `a`-`z` that denotes `n`. -/
theorem natToString_spec (radix : Nat) (h2 : 2 ≤ radix) (h36 : radix ≤ 36) (n : Nat) :
    natToString radix n ≠ [] ∧
    (∀ c ∈ natToString radix n, (48 ≤ c ∧ c ≤ 57) ∨ (97 ≤ c ∧ c ≤ 122)) ∧
    fromRadix radix (natToString radix n) = n := by
  obtain ⟨ds, hds, hne, hrange, hval⟩ := toRadixAux_spec radix h2 h36 (n + 1) n [] (by omega)
  have he : natToString radix n = ds := by
    rw [natToString, hds, List.append_nil]
  rw [he]
  exact ⟨hne, hrange, hval⟩

/-! ## Distinct ids -/

/-- C6, as stated, fails: two `onAdd` at the same clock reading with the same
random draw give the second task the id of the first.  The list after the
first add has distinct ids, the list after the second has not. -/
theorem onAdd_duplicate_id :
    (ids (onAdd 1700000000000 (str "0.4fzyo82mvyr")
        ⟨[], str "all", str "x", none, [], []⟩).todos).Nodup ∧
    ¬ (ids (onAdd 1700000000000 (str "0.4fzyo82mvyr")
        { onAdd 1700000000000 (str "0.4fzyo82mvyr") ⟨[], str "all", str "x", none, [], []⟩ with
          inputValue := str "y" }).todos).Nodup := by
  refine ⟨by decide, by decide⟩

/-- C6, amended: on a list with pairwise distinct ids, `toggleDone` and
`finishEdit` with a non-empty text keep the list of ids, `onClearCompleted`
keeps a sub-sequence of it, so the ids stay pairwise distinct; `onAdd` with a
blank field keeps the list, and otherwise puts the generated id in front of the
unchanged ids, which are pairwise distinct exactly when the generated id is not
already in the list.  The generated id is the numeral of the clock reading in
base 36 (digits `0`-`9`, `a`-`z`, denoting that reading) followed by
characters 2 to 5 of the random draw, at most four of them. -/
theorem ids_distinct_preserved (now : Nat) (rnd id newText : JSString) (s : State)
    (h : (ids s.todos).Nodup) :
    (ids (toggleDone id s).todos = ids s.todos ∧ (ids (toggleDone id s).todos).Nodup) ∧
    (newText ≠ [] → ∃ s1, finishEdit id newText s = Except.ok s1 ∧
      ids s1.todos = ids s.todos ∧ (ids s1.todos).Nodup) ∧
    ((ids (onClearCompleted s).todos).Sublist (ids s.todos) ∧
      (ids (onClearCompleted s).todos).Nodup) ∧
    (trim s.inputValue = [] → (onAdd now rnd s).todos = s.todos) ∧
    (trim s.inputValue ≠ [] →
      ids (onAdd now rnd s).todos = uid now rnd :: ids s.todos ∧
      ((ids (onAdd now rnd s).todos).Nodup ↔ uid now rnd ∉ ids s.todos)) ∧
    (uid now rnd = natToString 36 now ++ (rnd.drop 2).take 4 ∧
      ((rnd.drop 2).take 4).length ≤ 4 ∧
      natToString 36 now ≠ [] ∧
      (∀ c ∈ natToString 36 now, (48 ≤ c ∧ c ≤ 57) ∨ (97 ≤ c ∧ c ≤ 122)) ∧
      fromRadix 36 (natToString 36 now) = now) := by
  have ht : ids (toggleDone id s).todos = ids s.todos :=
    ids_map_update id (fun t => { t with done := !t.done }) (fun _ => rfl) s.todos
  have hc : (ids (onClearCompleted s).todos).Sublist (ids s.todos) := by
    rw [onClearCompleted_todos]
    exact (List.filter_sublist s.todos).map Task.id
  obtain ⟨hn1, hn2, hn3⟩ := natToString_spec 36 (by decide) (by decide) now
  refine ⟨⟨ht, ht ▸ h⟩, ?_, ⟨hc, hc.nodup h⟩, ?_, ?_,
    ⟨rfl, List.length_take_le 4 (rnd.drop 2), hn1, hn2, hn3⟩⟩
  · intro hne
    have he : ids (s.todos.map
        (fun t => if t.id = id then { t with text := newText } else t)) = ids s.todos :=
      ids_map_update id (fun t => { t with text := newText }) (fun _ => rfl) s.todos
    exact ⟨_, finishEdit_ok id newText s hne, he, he.symm ▸ h⟩
  · intro he
    simp [onAdd, he]
  · intro hne
    have ha : ids (onAdd now rnd s).todos = uid now rnd :: ids s.todos := by
      simp [onAdd, hne, ids]
    refine ⟨ha, ?_⟩
    rw [ha, List.nodup_cons]
    exact ⟨fun hh => hh.1, fun hh => ⟨hh, h⟩⟩

/-- Witness of C6 amended on the two-task list of "a" (done) and "b" (not
done): toggling and editing "a" keep the ids "a", "b"; clearing keeps "b";
adding "y" at clock 1700000000000 with the draw `0.4fzyo82mvyr` puts the id
`loyw3v284fzy` in front, which is not in the list, so the three ids are
distinct. -/
theorem ids_distinct_preserved_witness :
    (ids [(⟨str "a", str "x", true⟩ : Task), ⟨str "b", str "w", false⟩]).Nodup ∧
    ids (toggleDone (str "a")
      ⟨[⟨str "a", str "x", true⟩, ⟨str "b", str "w", false⟩], str "all", str "y", none, [],
        []⟩).todos = [str "a", str "b"] ∧
    (∃ s1, finishEdit (str "a") (str "z")
      ⟨[⟨str "a", str "x", true⟩, ⟨str "b", str "w", false⟩], str "all", str "y", none, [],
        []⟩ = Except.ok s1 ∧ ids s1.todos = [str "a", str "b"] ∧ (ids s1.todos).Nodup) ∧
    (ids (onClearCompleted
      ⟨[⟨str "a", str "x", true⟩, ⟨str "b", str "w", false⟩], str "all", str "y", none, [],
        []⟩).todos).Sublist [str "a", str "b"] ∧
    ids (onAdd 1700000000000 (str "0.4fzyo82mvyr")
      ⟨[⟨str "a", str "x", true⟩, ⟨str "b", str "w", false⟩], str "all", str "y", none, [],
        []⟩).todos = [str "loyw3v284fzy", str "a", str "b"] ∧
    (ids (onAdd 1700000000000 (str "0.4fzyo82mvyr")
      ⟨[⟨str "a", str "x", true⟩, ⟨str "b", str "w", false⟩], str "all", str "y", none, [],
        []⟩).todos).Nodup ∧
    uid 1700000000000 (str "0.4fzyo82mvyr") = str "loyw3v28" ++ str "4fzy" ∧
    fromRadix 36 (str "loyw3v28") = 1700000000000 :=
  match ids_distinct_preserved 1700000000000 (str "0.4fzyo82mvyr") (str "a") (str "z")
      ⟨[⟨str "a", str "x", true⟩, ⟨str "b", str "w", false⟩], str "all", str "y", none, [], []⟩
      (by decide) with
  | ⟨ht, he, hc, _, ha, hu⟩ =>
    ⟨by decide, ht.1, he (by decide), hc.1, (ha (by decide)).1,
      (ha (by decide)).2.mpr (by decide), hu.1, hu.2.2.2.2⟩

/-! ## `escapeHtml` -/

theorem replaceAll_append (c : Nat) (r a b : JSString) :
    replaceAll c r (a ++ b) = replaceAll c r a ++ replaceAll c r b := by
  induction a with
  | nil => rfl
  | cons x a ih =>
    by_cases h : x = c <;> simp [replaceAll, h, ih]

theorem escapeHtml_cons (x : Nat) (s : JSString) :
    escapeHtml (x :: s) = escChar x ++ escapeHtml s := by
  have e1 : replaceAll 38 (str "&amp;") (x :: s) =
      (if x = 38 then str "&amp;" else [x]) ++ replaceAll 38 (str "&amp;") s := by
    by_cases h : x = 38 <;> simp [replaceAll, h]
  unfold escapeHtml
  rw [e1, replaceAll_append, replaceAll_append, replaceAll_append]
  congr 1
  unfold escChar
  by_cases h38 : x = 38
  · subst h38
    decide
  · by_cases h60 : x = 60
    · subst h60
      decide
    · by_cases h62 : x = 62
      · subst h62
        decide
      · by_cases h34 : x = 34
        · subst h34
          decide
        · simp [replaceAll, h38, h60, h62, h34]

/-- The four chained replacements are one pass that rewrites each code unit
on its own. -/
theorem escapeHtml_eq_flatMap (s : JSString) : escapeHtml s = s.flatMap escChar := by
  induction s with
  | nil => rfl
  | cons x s ih => rw [escapeHtml_cons, ih, List.flatMap_cons]

theorem escChar_cases (x : Nat) :
    escChar x = [38, 97, 109, 112, 59] ∨ escChar x = [38, 108, 116, 59] ∨
    escChar x = [38, 103, 116, 59] ∨ escChar x = [38, 113, 117, 111, 116, 59] ∨
    (escChar x = [x] ∧ x ≠ 38 ∧ x ≠ 60 ∧ x ≠ 62 ∧ x ≠ 34) := by
  unfold escChar
  by_cases h38 : x = 38
  · left
    rw [if_pos h38]
    decide
  · by_cases h60 : x = 60
    · right; left
      rw [if_neg h38, if_pos h60]
      decide
    · by_cases h62 : x = 62
      · right; right; left
        rw [if_neg h38, if_neg h60, if_pos h62]
        decide
      · by_cases h34 : x = 34
        · right; right; right; left
          rw [if_neg h38, if_neg h60, if_neg h62, if_pos h34]
          decide
        · right; right; right; right
          rw [if_neg h38, if_neg h60, if_neg h62, if_neg h34]
          exact ⟨rfl, h38, h60, h62, h34⟩

theorem entities_eq :
    entities = [[38, 97, 109, 112, 59], [38, 108, 116, 59], [38, 103, 116, 59],
      [38, 113, 117, 111, 116, 59]] := by
  decide

theorem escapeHtml_no_special (s : JSString) (c : Nat) (hc : c ∈ escapeHtml s) :
    c ≠ 60 ∧ c ≠ 62 ∧ c ≠ 34 := by
  rw [escapeHtml_eq_flatMap, List.mem_flatMap] at hc
  obtain ⟨x, _, hx⟩ := hc
  rcases escChar_cases x with h | h | h | h | ⟨h, h38, h60, h62, h34⟩ <;> rw [h] at hx
  · simp at hx
    omega
  · simp at hx
    omega
  · simp at hx
    omega
  · simp at hx
    omega
  · simp at hx
    subst hx
    exact ⟨h60, h62, h34⟩

theorem escapeHtml_amp (s : JSString) :
    ∀ i : Nat, (escapeHtml s)[i]? = some 38 →
      ∃ e ∈ entities, ∃ rest, (escapeHtml s).drop i = e ++ rest := by
  induction s with
  | nil =>
    intro i hi
    simp [escapeHtml, replaceAll] at hi
  | cons x s ih =>
    intro i hi
    rw [escapeHtml_cons] at hi ⊢
    rw [entities_eq]
    rw [entities_eq] at ih
    rcases escChar_cases x with h | h | h | h | ⟨h, h38, _, _, _⟩ <;> rw [h] at hi ⊢
    · rcases i with _ | _ | _ | _ | _ | k
      · exact ⟨_, by simp, escapeHtml s, rfl⟩
      · simp at hi
      · simp at hi
      · simp at hi
      · simp at hi
      · simp at hi
        simpa using ih k hi
    · rcases i with _ | _ | _ | _ | k
      · exact ⟨_, by simp, escapeHtml s, rfl⟩
      · simp at hi
      · simp at hi
      · simp at hi
      · simp at hi
        simpa using ih k hi
    · rcases i with _ | _ | _ | _ | k
      · exact ⟨_, by simp, escapeHtml s, rfl⟩
      · simp at hi
      · simp at hi
      · simp at hi
      · simp at hi
        simpa using ih k hi
    · rcases i with _ | _ | _ | _ | _ | _ | k
      · exact ⟨_, by simp, escapeHtml s, rfl⟩
      · simp at hi
      · simp at hi
      · simp at hi
      · simp at hi
      · simp at hi
      · simp at hi
        simpa using ih k hi
    · rcases i with _ | k
      · simp at hi
        exact absurd hi h38
      · simp at hi
        simpa using ih k hi

/-- C5: `escapeHtml(s)` holds no less-than, greater-than or double quote, and
each ampersand in it starts one of the four entities; a row of `render` is
made of a part that does not depend on the text, the escaped text, the two
characters closing the tooltip, the escaped text again and a constant part;
the text `<script>` is written `&lt;script&gt;`. -/
theorem escapeHtml_spec (s : JSString) (t : Task) :
    (60 ∉ escapeHtml s ∧ 62 ∉ escapeHtml s ∧ 34 ∉ escapeHtml s) ∧
    (∀ i : Nat, (escapeHtml s)[i]? = some 38 →
      ∃ e ∈ entities, ∃ rest, (escapeHtml s).drop i = e ++ rest) ∧
    rowHtml t =
      rowOpen t.done t.id ++ escapeHtml t.text ++ str "\">" ++ escapeHtml t.text ++ rowClose ∧
    escapeHtml (str "<script>") = str "&lt;script&gt;" := by
  refine ⟨⟨?_, ?_, ?_⟩, escapeHtml_amp s, ?_, by decide⟩
  · exact fun h => (escapeHtml_no_special s 60 h).1 rfl
  · exact fun h => (escapeHtml_no_special s 62 h).2.1 rfl
  · exact fun h => (escapeHtml_no_special s 34 h).2.2 rfl
  · simp [rowHtml, rowOpen, rowClose, List.append_assoc]

/-- Witness of C5: in the escaped form of `a&b`, the ampersand at index 1
starts an entity. -/
theorem escapeHtml_spec_witness :
    escapeHtml (str "a&b") = str "a&amp;b" ∧
    ∃ e ∈ entities, ∃ rest, (escapeHtml (str "a&b")).drop 1 = e ++ rest :=
  ⟨by decide,
   (escapeHtml_spec (str "a&b") ⟨str "a", str "a&b", false⟩).2.1 1 (by decide)⟩


/-! ## Round trip through the slot -/

theorem hexVal_digitChar (d : Nat) (h : d < 16) : hexVal (digitChar d) = some d := by
  unfold digitChar hexVal
  by_cases h10 : d < 10
  · rw [if_pos h10, if_pos (by omega)]
    congr 1
    omega
  · rw [if_neg h10, if_neg (by omega), if_pos (by omega)]
    congr 1
    omega

theorem hex4_digits (c : Nat) (h : c < 65536) :
    hex4 (digitChar (c / 4096 % 16)) (digitChar (c / 256 % 16)) (digitChar (c / 16 % 16))
      (digitChar (c % 16)) = some c := by
  unfold hex4
  rw [hexVal_digitChar _ (Nat.mod_lt _ (by decide)), hexVal_digitChar _ (Nat.mod_lt _ (by decide)),
    hexVal_digitChar _ (Nat.mod_lt _ (by decide)), hexVal_digitChar _ (Nat.mod_lt _ (by decide))]
  simp only [Option.some.injEq]
  omega

theorem parseStringBody_unicodeEscape (c : Nat) (h : c < 65536) (rest : JSString) :
    parseStringBody (unicodeEscape c ++ rest) =
      (parseStringBody rest).map fun p => (c :: p.1, p.2) := by
  simp [unicodeEscape, parseStringBody, hex4_digits c h]

theorem parseStringBody_literal (c : Nat) (h32 : 32 ≤ c) (h34 : c ≠ 34) (h92 : c ≠ 92)
    (rest : JSString) :
    parseStringBody (c :: rest) = (parseStringBody rest).map fun p => (c :: p.1, p.2) := by
  rw [parseStringBody.eq_def]
  simp only [if_neg h34, if_neg h92, if_neg (show ¬ c < 32 by omega)]

theorem parseStringBody_escape (e x : Nat) (he : e ≠ 117) (hx : unescape e = some x)
    (rest : JSString) :
    parseStringBody (92 :: e :: rest) = (parseStringBody rest).map fun p => (x :: p.1, p.2) := by
  rw [parseStringBody.eq_def]
  simp [he, hx]

theorem parseStringBody_quoteBody (n : Nat) :
    ∀ (s rest : JSString), s.length ≤ n →
      parseStringBody (quoteBody s ++ 34 :: rest) = some (s, rest) := by
  induction n using Nat.strong_induction_on with
  | _ n ih =>
    intro s rest hn
    match s, hn with
    | [], _ =>
      rw [quoteBody, List.nil_append, parseStringBody.eq_def]
      simp
    | c :: s1, hn =>
      have hlen : s1.length < n := by
        simp only [List.length_cons] at hn
        omega
      have ih1 : ∀ r, parseStringBody (quoteBody s1 ++ 34 :: r) = some (s1, r) :=
        fun r => ih s1.length hlen s1 r le_rfl
      rw [quoteBody.eq_def]
      dsimp only
      by_cases h8 : c = 8
      · rw [if_pos h8, List.cons_append, List.cons_append,
          parseStringBody_escape 98 8 (by decide) rfl, ih1, h8]
        rfl
      rw [if_neg h8]
      by_cases h9 : c = 9
      · rw [if_pos h9, List.cons_append, List.cons_append,
          parseStringBody_escape 116 9 (by decide) rfl, ih1, h9]
        rfl
      rw [if_neg h9]
      by_cases h10 : c = 10
      · rw [if_pos h10, List.cons_append, List.cons_append,
          parseStringBody_escape 110 10 (by decide) rfl, ih1, h10]
        rfl
      rw [if_neg h10]
      by_cases h12 : c = 12
      · rw [if_pos h12, List.cons_append, List.cons_append,
          parseStringBody_escape 102 12 (by decide) rfl, ih1, h12]
        rfl
      rw [if_neg h12]
      by_cases h13 : c = 13
      · rw [if_pos h13, List.cons_append, List.cons_append,
          parseStringBody_escape 114 13 (by decide) rfl, ih1, h13]
        rfl
      rw [if_neg h13]
      by_cases h34 : c = 34
      · rw [if_pos h34, List.cons_append, List.cons_append,
          parseStringBody_escape 34 34 (by decide) rfl, ih1, h34]
        rfl
      rw [if_neg h34]
      by_cases h92 : c = 92
      · rw [if_pos h92, List.cons_append, List.cons_append,
          parseStringBody_escape 92 92 (by decide) rfl, ih1, h92]
        rfl
      rw [if_neg h92]
      by_cases h32 : c < 32
      · rw [if_pos h32, List.append_assoc, parseStringBody_unicodeEscape c (by omega), ih1]
        rfl
      rw [if_neg h32]
      by_cases hhi : isHighSurrogate c = true
      · rw [if_pos hhi]
        have hc : 55296 ≤ c ∧ c ≤ 56319 := by simpa [isHighSurrogate] using hhi
        match s1, hn, ih1 with
        | [], _, _ =>
          dsimp only
          rw [parseStringBody_unicodeEscape c (by omega), parseStringBody.eq_def]
          simp
        | d :: s2, hn, ih1 =>
          dsimp only
          by_cases hd : isLowSurrogate d = true
          · have hd2 : 56320 ≤ d ∧ d ≤ 57343 := by simpa [isLowSurrogate] using hd
            have hlen2 : s2.length < n := by
              simp only [List.length_cons] at hn
              omega
            rw [if_pos hd, List.cons_append, List.cons_append,
              parseStringBody_literal c (by omega) (by omega) (by omega),
              parseStringBody_literal d (by omega) (by omega) (by omega),
              ih s2.length hlen2 s2 rest le_rfl]
            rfl
          · rw [if_neg hd, List.append_assoc, parseStringBody_unicodeEscape c (by omega), ih1]
            rfl
      rw [if_neg hhi]
      by_cases hlo : isLowSurrogate c = true
      · have hc : 56320 ≤ c ∧ c ≤ 57343 := by simpa [isLowSurrogate] using hlo
        rw [if_pos hlo, List.append_assoc, parseStringBody_unicodeEscape c (by omega), ih1]
        rfl
      rw [if_neg hlo, List.cons_append, parseStringBody_literal c (by omega) h34 h92, ih1]
      rfl


theorem skipWs_cons (c : Nat) (rest : JSString) (h : c ≠ 32 ∧ c ≠ 9 ∧ c ≠ 10 ∧ c ≠ 13) :
    skipWs (c :: rest) = c :: rest := by
  simp [skipWs, h]

theorem parseValue_quote (n : Nat) (s rest : JSString) :
    parseValue (n + 1) (quote s ++ rest) = some (Json.str s, rest) := by
  have h : quote s ++ rest = 34 :: (quoteBody s ++ 34 :: rest) := by simp [quote]
  rw [h, parseValue, skipWs_cons 34 _ (by decide)]
  simp [parseStringBody_quoteBody s.length s rest le_rfl]

theorem parseValue_bool (n : Nat) (b : Bool) (rest : JSString) :
    parseValue (n + 1) ((if b then str "true" else str "false") ++ rest)
      = some (Json.bool b, rest) := by
  have ht : str "true" = [116, 114, 117, 101] := by decide
  have hf : str "false" = [102, 97, 108, 115, 101] := by decide
  have ht1 : str "rue" = [114, 117, 101] := by decide
  have hf1 : str "alse" = [97, 108, 115, 101] := by decide
  cases b
  · simp [hf, hf1, parseValue, skipWs, stripLit]
  · simp [ht, ht1, parseValue, skipWs, stripLit]

/-- One member of an object whose key needs no escape. -/
theorem parseMembers_member (n : Nat) (k : JSString) (hk : quoteBody k = k) (v : Json)
    (input r3 : JSString) (hv : parseValue n input = some (v, r3)) :
    parseMembers (n + 1) (34 :: (k ++ 34 :: 58 :: input)) =
      match skipWs r3 with
      | [] => none
      | d :: r4 =>
        if d = 44 then (parseMembers n r4).map fun p => ((k, v) :: p.1, p.2)
        else if d = 125 then some ([(k, v)], r4)
        else none := by
  have hs : parseStringBody (k ++ 34 :: 58 :: input) = some (k, 58 :: input) := by
    have := parseStringBody_quoteBody k.length k (58 :: input) le_rfl
    rwa [hk] at this
  rw [parseMembers, skipWs_cons 34 _ (by decide)]
  simp only [if_true, hs, skipWs_cons 58 _ (by decide), hv]

theorem stringifyTask_append (t : Task) (rest : JSString) :
    stringifyTask t ++ rest =
      123 :: 34 :: ([105, 100] ++ 34 :: 58 :: (quote t.id ++
        (44 :: 34 :: ([116, 101, 120, 116] ++ 34 :: 58 :: (quote t.text ++
          (44 :: 34 :: ([100, 111, 110, 101] ++ 34 :: 58 ::
            ((if t.done then str "true" else str "false") ++ 125 :: rest)))))))) := by
  have h1 : str "\x7b\"id\":" = [123, 34, 105, 100, 34, 58] := by decide
  have h2 : str ",\"text\":" = [44, 34, 116, 101, 120, 116, 34, 58] := by decide
  have h3 : str ",\"done\":" = [44, 34, 100, 111, 110, 101, 34, 58] := by decide
  have h4 : str "\x7d" = [125] := by decide
  simp [stringifyTask, h1, h2, h3, h4]

theorem parseValue_stringifyTask (n : Nat) (t : Task) (rest : JSString) :
    parseValue (n + 5) (stringifyTask t ++ rest) = some (t.toJson, rest) := by
  have hid : str "id" = [105, 100] := by decide
  have htext : str "text" = [116, 101, 120, 116] := by decide
  have hdone : str "done" = [100, 111, 110, 101] := by decide
  have m3 := parseMembers_member (n + 1) [100, 111, 110, 101] (by decide) (Json.bool t.done) _ _
    (parseValue_bool n t.done (125 :: rest))
  rw [skipWs_cons 125 _ (by decide)] at m3
  simp only [show ¬ (125 = 44) by decide, if_false, if_true] at m3
  have m2 := parseMembers_member (n + 2) [116, 101, 120, 116] (by decide) (Json.str t.text) _ _
    (parseValue_quote (n + 1) t.text (44 :: 34 :: ([100, 111, 110, 101] ++ 34 :: 58 ::
      ((if t.done then str "true" else str "false") ++ 125 :: rest))))
  rw [skipWs_cons 44 _ (by decide)] at m2
  simp only [if_true, m3, Option.map_some'] at m2
  have m1 := parseMembers_member (n + 3) [105, 100] (by decide) (Json.str t.id) _ _
    (parseValue_quote (n + 2) t.id (44 :: 34 :: ([116, 101, 120, 116] ++ 34 :: 58 ::
      (quote t.text ++ (44 :: 34 :: ([100, 111, 110, 101] ++ 34 :: 58 ::
        ((if t.done then str "true" else str "false") ++ 125 :: rest)))))))
  rw [skipWs_cons 44 _ (by decide)] at m1
  simp only [if_true, m2, Option.map_some'] at m1
  rw [stringifyTask_append, parseValue, skipWs_cons 123 _ (by decide)]
  simp only [show ¬ (123 = 34) by decide, show ¬ (123 = 91) by decide, if_false, if_true,
    skipWs_cons 34 _ (show (34 : Nat) ≠ 32 ∧ (34 : Nat) ≠ 9 ∧ (34 : Nat) ≠ 10 ∧ (34 : Nat) ≠ 13 by decide),
    show ¬ (34 = 125) by decide, m1, Option.map_some']
  simp [Task.toJson, hid, htext, hdone]

theorem parseElems_stringifyItems (l : List Task) :
    ∀ (t : Task) (n : Nat) (rest : JSString),
      parseElems (n + (t :: l).length + 5) (stringifyItems (t :: l) ++ 93 :: rest)
        = some ((t :: l).map Task.toJson, rest) := by
  induction l with
  | nil =>
    intro t n rest
    have hf : n + [t].length + 5 = (n + 5) + 1 := by
      simp only [List.length_cons, List.length_nil]
    rw [hf, parseElems, stringifyItems, parseValue_stringifyTask n t (93 :: rest)]
    simp only [skipWs_cons 93 _ (show (93 : Nat) ≠ 32 ∧ (93 : Nat) ≠ 9 ∧ (93 : Nat) ≠ 10 ∧
      (93 : Nat) ≠ 13 by decide), show ¬ (93 = 44) by decide, if_false, if_true]
    rfl
  | cons u l ih =>
    intro t n rest
    have hf : n + (t :: u :: l).length + 5 = (n + (u :: l).length + 5) + 1 := by
      simp only [List.length_cons]
      omega
    have hs : stringifyItems (t :: u :: l) ++ 93 :: rest =
        stringifyTask t ++ (44 :: (stringifyItems (u :: l) ++ 93 :: rest)) := by
      simp [stringifyItems]
    have hv := parseValue_stringifyTask (n + (u :: l).length) t
      (44 :: (stringifyItems (u :: l) ++ 93 :: rest))
    rw [hf, parseElems, hs, hv]
    simp only [skipWs_cons 44 _ (show (44 : Nat) ≠ 32 ∧ (44 : Nat) ≠ 9 ∧ (44 : Nat) ≠ 10 ∧
      (44 : Nat) ≠ 13 by decide), if_true, ih u n rest, Option.map_some']
    rfl

theorem stringifyTask_length (t : Task) : 4 ≤ (stringifyTask t).length := by
  have h := congrArg List.length (stringifyTask_append t [])
  simp only [List.append_nil, List.length_cons, List.length_append] at h
  omega

theorem stringifyItems_length (l : List Task) : 4 * l.length ≤ (stringifyItems l).length := by
  induction l with
  | nil => simp
  | cons t l ih =>
    cases l with
    | nil =>
      simpa [stringifyItems] using stringifyTask_length t
    | cons u l =>
      have ht := stringifyTask_length t
      simp only [stringifyItems, List.length_append, List.length_cons] at ih ⊢
      omega

theorem stringifyItems_head (t : Task) (l : List Task) :
    ∃ tl, stringifyItems (t :: l) = 123 :: tl := by
  cases l with
  | nil => exact ⟨_, by simpa using stringifyTask_append t []⟩
  | cons u l =>
    have h : stringifyItems (t :: u :: l) = stringifyTask t ++ (44 :: stringifyItems (u :: l)) := by
      simp [stringifyItems]
    rw [h, stringifyTask_append]
    exact ⟨_, rfl⟩

/-- `JSON.parse` reads back what `JSON.stringify` wrote for a task list. -/
theorem JSON_parse_stringify (l : List Task) :
    JSON_parse (JSON_stringify l) = some (ofTasks l) := by
  cases l with
  | nil => rfl
  | cons t l =>
    obtain ⟨tl, htl⟩ := stringifyItems_head t l
    have hlen := stringifyItems_length (t :: l)
    have key := parseElems_stringifyItems l t
      ((stringifyItems (t :: l)).length + 2 - ((t :: l).length + 5)) []
    have hf : (JSON_stringify (t :: l)).length + 1 =
        ((stringifyItems (t :: l)).length + 2 - ((t :: l).length + 5) + (t :: l).length + 5)
          + 1 := by
      simp only [JSON_stringify, List.length_cons, List.length_append, List.length_nil] at hlen ⊢
      omega
    generalize (stringifyItems (t :: l)).length + 2 - ((t :: l).length + 5) + (t :: l).length + 5
      = fuel at key hf
    unfold JSON_parse
    rw [hf]
    rw [htl] at key
    simp only [List.cons_append] at key
    rw [JSON_stringify, htl]
    simp only [List.cons_append]
    rw [parseValue, skipWs_cons 91 _ (by decide)]
    simp only [show ¬ (91 = 34) by decide, if_false, if_true, List.cons_append,
      skipWs_cons 123 _ (show (123 : Nat) ≠ 32 ∧ (123 : Nat) ≠ 9 ∧ (123 : Nat) ≠ 10 ∧
        (123 : Nat) ≠ 13 by decide), show ¬ (123 = 93) by decide, key, Option.map_some']
    rfl

theorem Task.toJson_injective : Function.Injective Task.toJson := by
  intro a b h
  cases a
  cases b
  simp only [Task.toJson, Json.obj.injEq, List.cons.injEq, Prod.mk.injEq, Json.str.injEq,
    Json.bool.injEq, true_and, and_true] at h
  obtain ⟨h1, h2, h3⟩ := h
  simp [h1, h2, h3]

theorem ofTasks_injective : Function.Injective ofTasks := by
  intro a b h
  simp only [ofTasks, Json.arr.injEq] at h
  exact List.map_injective_iff.mpr Task.toJson_injective h

/-- C3: `save()` followed by `load()` gives `todos` the array of exactly the
tasks it had: the loaded value is the value of the saved list, and it is the
value of no other list. -/
theorem save_load_roundtrip (s : State) :
    load (save s).storage = ofTasks s.todos ∧
    (∀ l : List Task, load (save s).storage = ofTasks l ↔ l = s.todos) ∧
    load (save { s with todos := [] }).storage = Json.arr [] := by
  have h : load (save s).storage = ofTasks s.todos := by
    have hne : JSON_stringify s.todos ≠ [] := by simp [JSON_stringify]
    simp only [save, load, if_neg hne, JSON_parse_stringify]
  refine ⟨h, ?_, rfl⟩
  intro l
  rw [h]
  exact ⟨fun e => (ofTasks_injective e).symm, fun e => e ▸ rfl⟩

/-! ## The fuel of `JSON_parse` is enough -/

theorem skipWs_length (i : JSString) : (skipWs i).length ≤ i.length := by
  induction i with
  | nil => simp [skipWs]
  | cons c i ih =>
    unfold skipWs
    split
    · simp only [List.length_cons]
      omega
    · exact le_rfl

theorem span_snd_length (i : JSString) : (i.span isDigit).2.length ≤ i.length := by
  rw [List.span_eq_take_drop]
  exact (List.dropWhile_suffix isDigit).length_le

theorem parseStringBody_length (n : Nat) :
    ∀ (i s r : JSString), i.length ≤ n → parseStringBody i = some (s, r) →
      r.length < i.length := by
  induction n using Nat.strong_induction_on with
  | _ n ih =>
    intro i s r hn h
    rw [parseStringBody.eq_def] at h
    match i, hn, h with
    | [], _, h => simp at h
    | c :: rest, hn, h =>
      simp only [List.length_cons] at hn ⊢
      dsimp only at h
      by_cases h34 : c = 34
      · rw [if_pos h34] at h
        simp only [Option.some.injEq, Prod.mk.injEq] at h
        rw [← h.2]
        omega
      rw [if_neg h34] at h
      by_cases h92 : c = 92
      · rw [if_pos h92] at h
        match rest, hn, h with
        | [], _, h => simp at h
        | e :: rest1, hn, h =>
          simp only [List.length_cons] at hn ⊢
          dsimp only at h
          by_cases h117 : e = 117
          · rw [if_pos h117] at h
            match rest1, hn, h with
            | a :: b :: c2 :: d :: rest2, hn, h =>
              simp only [List.length_cons] at hn ⊢
              dsimp only at h
              cases hx : hex4 a b c2 d with
              | none => simp [hx] at h
              | some x =>
                rw [hx] at h
                dsimp only at h
                cases hp : parseStringBody rest2 with
                | none => simp [hp] at h
                | some p =>
                  rw [hp] at h
                  simp only [Option.map_some', Option.some.injEq, Prod.mk.injEq] at h
                  have := ih rest2.length (by omega) rest2 p.1 p.2 le_rfl hp
                  rw [← h.2]
                  omega
            | [], _, h => simp at h
            | [_], _, h => simp at h
            | [_, _], _, h => simp at h
            | [_, _, _], _, h => simp at h
          · rw [if_neg h117] at h
            cases hu : unescape e with
            | none => simp [hu] at h
            | some x =>
              rw [hu] at h
              dsimp only at h
              cases hp : parseStringBody rest1 with
              | none => simp [hp] at h
              | some p =>
                rw [hp] at h
                simp only [Option.map_some', Option.some.injEq, Prod.mk.injEq] at h
                have := ih rest1.length (by omega) rest1 p.1 p.2 le_rfl hp
                rw [← h.2]
                omega
      rw [if_neg h92] at h
      by_cases h32 : c < 32
      · simp [h32] at h
      rw [if_neg h32] at h
      cases hp : parseStringBody rest with
      | none => simp [hp] at h
      | some p =>
        rw [hp] at h
        simp only [Option.map_some', Option.some.injEq, Prod.mk.injEq] at h
        have := ih rest.length (by omega) rest p.1 p.2 le_rfl hp
        rw [← h.2]
        omega

theorem stripLit_length (lit : JSString) :
    ∀ (i r : JSString), stripLit lit i = some r → r.length ≤ i.length := by
  induction lit with
  | nil =>
    intro i r h
    simp only [stripLit, Option.some.injEq] at h
    rw [h]
  | cons c lit ih =>
    intro i r h
    cases i with
    | nil => simp [stripLit] at h
    | cons x i =>
      rw [stripLit] at h
      by_cases hc : c = x
      · rw [if_pos hc] at h
        have := ih i r h
        simp only [List.length_cons]
        omega
      · simp [hc] at h

theorem parseExp_length (acc i l r : JSString) (h : parseExp acc i = some (l, r)) :
    r.length ≤ i.length := by
  unfold parseExp at h
  match i, h with
  | [], h =>
    simp only [Option.some.injEq, Prod.mk.injEq] at h
    rw [← h.2]
  | e :: i1, h =>
    dsimp only at h
    by_cases he : e = 101 ∨ e = 69
    · rw [if_pos he] at h
      match i1, h with
      | [], h => simp at h
      | s :: i2, h =>
        dsimp only at h
        by_cases hs : s = 43 ∨ s = 45
        · rw [if_pos hs] at h
          by_cases hd : (i2.span isDigit).1 = []
          · rw [if_pos hd] at h
            cases h
          · rw [if_neg hd] at h
            simp only [Option.some.injEq, Prod.mk.injEq] at h
            have := span_snd_length i2
            rw [← h.2]
            simp only [List.length_cons]
            omega
        · rw [if_neg hs] at h
          by_cases hd : ((s :: i2).span isDigit).1 = []
          · rw [if_pos hd] at h
            cases h
          · rw [if_neg hd] at h
            simp only [Option.some.injEq, Prod.mk.injEq] at h
            have := span_snd_length (s :: i2)
            rw [← h.2]
            simp only [List.length_cons] at this ⊢
            omega
    · rw [if_neg he] at h
      simp only [Option.some.injEq, Prod.mk.injEq] at h
      rw [← h.2]

theorem parseFrac_length (acc i l r : JSString) (h : parseFrac acc i = some (l, r)) :
    r.length ≤ i.length := by
  unfold parseFrac at h
  match i, h with
  | [], h =>
    simp only [Option.some.injEq, Prod.mk.injEq] at h
    rw [← h.2]
  | p :: i1, h =>
    dsimp only at h
    by_cases hp : p = 46
    · rw [if_pos hp] at h
      by_cases hd : (i1.span isDigit).1 = []
      · rw [if_pos hd] at h
        cases h
      · rw [if_neg hd] at h
        have h1 := parseExp_length _ _ _ _ h
        have h2 := span_snd_length i1
        simp only [List.length_cons]
        omega
    · rw [if_neg hp] at h
      exact parseExp_length _ _ _ _ h

theorem parseNumber_length (i l r : JSString) (h : parseNumber i = some (l, r)) :
    r.length < i.length := by
  have hint : ∀ acc j, parseInt acc j = some (l, r) → r.length < j.length := by
    intro acc j hj
    unfold parseInt at hj
    match j, hj with
    | [], hj => simp at hj
    | c :: j1, hj =>
      dsimp only at hj
      simp only [List.length_cons]
      by_cases h0 : c = 48
      · rw [if_pos h0] at hj
        have := parseFrac_length _ _ _ _ hj
        omega
      · rw [if_neg h0] at hj
        by_cases h1 : 49 ≤ c ∧ c ≤ 57
        · rw [if_pos h1] at hj
          have h2 := parseFrac_length _ _ _ _ hj
          have h3 := span_snd_length j1
          omega
        · simp [h1] at hj
  unfold parseNumber at h
  match i, h with
  | [], h => simp at h
  | c :: i1, h =>
    dsimp only at h
    by_cases hm : c = 45
    · rw [if_pos hm] at h
      have := hint _ _ h
      simp only [List.length_cons]
      omega
    · rw [if_neg hm] at h
      exact hint _ _ h

theorem map_pair_eq_some {α β : Type} (g : α → β) (o : Option (α × JSString)) (v : β)
    (r : JSString) (h : o.map (fun p => (g p.1, p.2)) = some (v, r)) :
    ∃ a, o = some (a, r) ∧ g a = v := by
  cases o with
  | none => cases h
  | some p =>
    simp only [Option.map_some', Option.some.injEq, Prod.mk.injEq] at h
    exact ⟨p.1, by rw [← h.2], h.1⟩

theorem map_const_eq_some {β : Type} (b : β) (o : Option JSString) (v : β) (r : JSString)
    (h : o.map (fun q => (b, q)) = some (v, r)) : o = some r ∧ b = v := by
  cases o with
  | none => cases h
  | some q =>
    simp only [Option.map_some', Option.some.injEq, Prod.mk.injEq] at h
    exact ⟨by rw [h.2], h.1⟩

theorem skipWs_eq_cons_length {i rest : JSString} {c : Nat} (h : skipWs i = c :: rest) :
    rest.length + 1 ≤ i.length := by
  have := skipWs_length i
  rw [h] at this
  exact this

/-- A parse that succeeds with some fuel consumes at least one character and
succeeds, with the same result, with any fuel that is at least the number of
characters it consumes. -/
theorem parse_fuel (n : Nat) :
    (∀ i v r, parseValue n i = some (v, r) →
      r.length < i.length ∧ ∀ m, i.length - r.length ≤ m → parseValue m i = some (v, r)) ∧
    (∀ i xs r, parseElems n i = some (xs, r) →
      r.length < i.length ∧ ∀ m, i.length - r.length ≤ m → parseElems m i = some (xs, r)) ∧
    (∀ i ms r, parseMembers n i = some (ms, r) →
      r.length < i.length ∧ ∀ m, i.length - r.length ≤ m → parseMembers m i = some (ms, r)) := by
  induction n with
  | zero =>
    refine ⟨?_, ?_, ?_⟩
    · intro i v r h
      rw [parseValue] at h
      cases h
    · intro i v r h
      rw [parseElems] at h
      cases h
    · intro i v r h
      rw [parseMembers] at h
      cases h
  | succ n ih =>
    obtain ⟨ihV, ihE, ihM⟩ := ih
    refine ⟨?_, ?_, ?_⟩
    · intro i v r h
      rw [parseValue] at h
      cases hs : skipWs i with
      | nil =>
        rw [hs] at h
        cases h
      | cons c rest =>
        rw [hs] at h
        dsimp only at h
        have hlen := skipWs_eq_cons_length hs
        by_cases h34 : c = 34
        · rw [if_pos h34] at h
          obtain ⟨a, ha, _⟩ := map_pair_eq_some Json.str _ _ _ h
          have hl := parseStringBody_length rest.length rest a r le_rfl ha
          refine ⟨by omega, fun m hm => ?_⟩
          obtain ⟨k, rfl⟩ : ∃ k, m = k + 1 := ⟨m - 1, by omega⟩
          rw [parseValue, hs]
          dsimp only
          rw [if_pos h34]
          exact h
        rw [if_neg h34] at h
        by_cases h91 : c = 91
        · rw [if_pos h91] at h
          cases hs2 : skipWs rest with
          | nil =>
            rw [hs2] at h
            cases h
          | cons d rest1 =>
            rw [hs2] at h
            dsimp only at h
            have hlen2 := skipWs_eq_cons_length hs2
            by_cases h93 : d = 93
            · rw [if_pos h93] at h
              simp only [Option.some.injEq, Prod.mk.injEq] at h
              refine ⟨by rw [← h.2]; omega, fun m hm => ?_⟩
              obtain ⟨k, rfl⟩ : ∃ k, m = k + 1 := ⟨m - 1, by rw [← h.2] at hm; omega⟩
              rw [parseValue, hs]
              dsimp only
              rw [if_neg h34, if_pos h91, hs2]
              dsimp only
              rw [if_pos h93, h.1, h.2]
            · rw [if_neg h93] at h
              obtain ⟨xs, hxs, hv⟩ := map_pair_eq_some Json.arr _ _ _ h
              obtain ⟨hr1, hf1⟩ := ihE _ _ _ hxs
              simp only [List.length_cons] at hr1 hf1
              refine ⟨by omega, fun m hm => ?_⟩
              obtain ⟨k, rfl⟩ : ∃ k, m = k + 1 := ⟨m - 1, by omega⟩
              rw [parseValue, hs]
              dsimp only
              rw [if_neg h34, if_pos h91, hs2]
              dsimp only
              rw [if_neg h93, hf1 k (by omega), Option.map_some', hv]
        rw [if_neg h91] at h
        by_cases h123 : c = 123
        · rw [if_pos h123] at h
          cases hs2 : skipWs rest with
          | nil =>
            rw [hs2] at h
            cases h
          | cons d rest1 =>
            rw [hs2] at h
            dsimp only at h
            have hlen2 := skipWs_eq_cons_length hs2
            by_cases h125 : d = 125
            · rw [if_pos h125] at h
              simp only [Option.some.injEq, Prod.mk.injEq] at h
              refine ⟨by rw [← h.2]; omega, fun m hm => ?_⟩
              obtain ⟨k, rfl⟩ : ∃ k, m = k + 1 := ⟨m - 1, by rw [← h.2] at hm; omega⟩
              rw [parseValue, hs]
              dsimp only
              rw [if_neg h34, if_neg h91, if_pos h123, hs2]
              dsimp only
              rw [if_pos h125, h.1, h.2]
            · rw [if_neg h125] at h
              obtain ⟨ms, hms, hv⟩ := map_pair_eq_some Json.obj _ _ _ h
              obtain ⟨hr1, hf1⟩ := ihM _ _ _ hms
              simp only [List.length_cons] at hr1 hf1
              refine ⟨by omega, fun m hm => ?_⟩
              obtain ⟨k, rfl⟩ : ∃ k, m = k + 1 := ⟨m - 1, by omega⟩
              rw [parseValue, hs]
              dsimp only
              rw [if_neg h34, if_neg h91, if_pos h123, hs2]
              dsimp only
              rw [if_neg h125, hf1 k (by omega), Option.map_some', hv]
        rw [if_neg h123] at h
        by_cases h116 : c = 116
        · rw [if_pos h116] at h
          have hl := stripLit_length _ _ _ (map_const_eq_some _ _ _ _ h).1
          refine ⟨by omega, fun m hm => ?_⟩
          obtain ⟨k, rfl⟩ : ∃ k, m = k + 1 := ⟨m - 1, by omega⟩
          rw [parseValue, hs]
          dsimp only
          rw [if_neg h34, if_neg h91, if_neg h123, if_pos h116]
          exact h
        rw [if_neg h116] at h
        by_cases h102 : c = 102
        · rw [if_pos h102] at h
          have hl := stripLit_length _ _ _ (map_const_eq_some _ _ _ _ h).1
          refine ⟨by omega, fun m hm => ?_⟩
          obtain ⟨k, rfl⟩ : ∃ k, m = k + 1 := ⟨m - 1, by omega⟩
          rw [parseValue, hs]
          dsimp only
          rw [if_neg h34, if_neg h91, if_neg h123, if_neg h116, if_pos h102]
          exact h
        rw [if_neg h102] at h
        by_cases h110 : c = 110
        · rw [if_pos h110] at h
          have hl := stripLit_length _ _ _ (map_const_eq_some _ _ _ _ h).1
          refine ⟨by omega, fun m hm => ?_⟩
          obtain ⟨k, rfl⟩ : ∃ k, m = k + 1 := ⟨m - 1, by omega⟩
          rw [parseValue, hs]
          dsimp only
          rw [if_neg h34, if_neg h91, if_neg h123, if_neg h116, if_neg h102, if_pos h110]
          exact h
        rw [if_neg h110] at h
        obtain ⟨a, ha, _⟩ := map_pair_eq_some Json.num _ _ _ h
        have hl := parseNumber_length _ _ _ ha
        simp only [List.length_cons] at hl
        refine ⟨by omega, fun m hm => ?_⟩
        obtain ⟨k, rfl⟩ : ∃ k, m = k + 1 := ⟨m - 1, by omega⟩
        rw [parseValue, hs]
        dsimp only
        rw [if_neg h34, if_neg h91, if_neg h123, if_neg h116, if_neg h102, if_neg h110]
        exact h
    · intro i xs r h
      rw [parseElems] at h
      cases hv : parseValue n i with
      | none =>
        rw [hv] at h
        cases h
      | some p =>
        obtain ⟨v, r0⟩ := p
        rw [hv] at h
        dsimp only at h
        obtain ⟨hr0, hf0⟩ := ihV _ _ _ hv
        cases hs : skipWs r0 with
        | nil =>
          rw [hs] at h
          cases h
        | cons c r1 =>
          rw [hs] at h
          dsimp only at h
          have hlen := skipWs_eq_cons_length hs
          by_cases h44 : c = 44
          · rw [if_pos h44] at h
            obtain ⟨ys, hys, hxs⟩ := map_pair_eq_some (fun l => v :: l) _ _ _ h
            obtain ⟨hr1, hf1⟩ := ihE _ _ _ hys
            refine ⟨by omega, fun m hm => ?_⟩
            obtain ⟨k, rfl⟩ : ∃ k, m = k + 1 := ⟨m - 1, by omega⟩
            rw [parseElems, hf0 k (by omega)]
            dsimp only
            rw [hs]
            dsimp only
            rw [if_pos h44, hf1 k (by omega), Option.map_some']
            exact congrArg some (Prod.ext hxs rfl)
          · rw [if_neg h44] at h
            by_cases h93 : c = 93
            · rw [if_pos h93] at h
              simp only [Option.some.injEq, Prod.mk.injEq] at h
              refine ⟨by rw [← h.2]; omega, fun m hm => ?_⟩
              obtain ⟨k, rfl⟩ : ∃ k, m = k + 1 := ⟨m - 1, by rw [← h.2] at hm; omega⟩
              rw [parseElems, hf0 k (by rw [← h.2] at hm; omega)]
              dsimp only
              rw [hs]
              dsimp only
              rw [if_neg h44, if_pos h93, h.1, h.2]
            · rw [if_neg h93] at h
              cases h
    · intro i ms r h
      rw [parseMembers] at h
      cases hs0 : skipWs i with
      | nil =>
        rw [hs0] at h
        cases h
      | cons q r0 =>
        rw [hs0] at h
        dsimp only at h
        have hlen0 := skipWs_eq_cons_length hs0
        by_cases hq : q = 34
        · rw [if_pos hq] at h
          cases hk : parseStringBody r0 with
          | none =>
            rw [hk] at h
            cases h
          | some p =>
            obtain ⟨key, r1⟩ := p
            rw [hk] at h
            dsimp only at h
            have hlen1 := parseStringBody_length r0.length r0 key r1 le_rfl hk
            cases hs1 : skipWs r1 with
            | nil =>
              rw [hs1] at h
              cases h
            | cons c r2 =>
              rw [hs1] at h
              dsimp only at h
              have hlen2 := skipWs_eq_cons_length hs1
              by_cases h58 : c = 58
              · rw [if_pos h58] at h
                cases hv : parseValue n r2 with
                | none =>
                  rw [hv] at h
                  cases h
                | some p =>
                  obtain ⟨v, r3⟩ := p
                  rw [hv] at h
                  dsimp only at h
                  obtain ⟨hr3, hf3⟩ := ihV _ _ _ hv
                  cases hs3 : skipWs r3 with
                  | nil =>
                    rw [hs3] at h
                    cases h
                  | cons d r4 =>
                    rw [hs3] at h
                    dsimp only at h
                    have hlen4 := skipWs_eq_cons_length hs3
                    by_cases h44 : d = 44
                    · rw [if_pos h44] at h
                      obtain ⟨ys, hys, hms⟩ :=
                        map_pair_eq_some (fun l => (key, v) :: l) _ _ _ h
                      obtain ⟨hr5, hf5⟩ := ihM _ _ _ hys
                      refine ⟨by omega, fun m hm => ?_⟩
                      obtain ⟨k, rfl⟩ : ∃ k, m = k + 1 := ⟨m - 1, by omega⟩
                      rw [parseMembers, hs0]
                      dsimp only
                      rw [if_pos hq, hk]
                      dsimp only
                      rw [hs1]
                      dsimp only
                      rw [if_pos h58, hf3 k (by omega)]
                      dsimp only
                      rw [hs3]
                      dsimp only
                      rw [if_pos h44, hf5 k (by omega), Option.map_some']
                      exact congrArg some (Prod.ext hms rfl)
                    · rw [if_neg h44] at h
                      by_cases h125 : d = 125
                      · rw [if_pos h125] at h
                        simp only [Option.some.injEq, Prod.mk.injEq] at h
                        have hr : r.length < i.length := by rw [← h.2]; omega
                        refine ⟨hr, fun m hm => ?_⟩
                        obtain ⟨k, rfl⟩ : ∃ k, m = k + 1 := ⟨m - 1, by omega⟩
                        rw [parseMembers, hs0]
                        dsimp only
                        rw [if_pos hq, hk]
                        dsimp only
                        rw [hs1]
                        dsimp only
                        rw [if_pos h58, hf3 k (by rw [← h.2] at hm; omega)]
                        dsimp only
                        rw [hs3]
                        dsimp only
                        rw [if_neg h44, if_pos h125, h.1, h.2]
                      · rw [if_neg h125] at h
                        cases h
              · rw [if_neg h58] at h
                cases h
        · rw [if_neg hq] at h
          cases h

/-- The fuel `JSON_parse` gives itself is enough: a text that parses completely
with any fuel at all is accepted by `JSON_parse`, with the same value; so
`JSON_parse` rejects a text only when no fuel makes it parse. -/
theorem JSON_parse_of_fuel (raw : JSString) (n : Nat) (v : Json) (r : JSString)
    (h : parseValue n raw = some (v, r)) (hr : skipWs r = []) :
    JSON_parse raw = some v := by
  obtain ⟨_, hf⟩ := (parse_fuel n).1 raw v r h
  unfold JSON_parse
  rw [hf (raw.length + 1) (by omega)]
  dsimp only
  rw [if_pos hr]
/-! ## `load` -/

/-- C4, as stated, fails: the text `null` is not the serialization of any task
list, `JSON.parse` accepts it, and `load` sets `todos` to `null`, not to the
empty array. -/
theorem load_null_not_empty :
    (∀ l : List Task, JSON_stringify l ≠ str "null") ∧
    JSON_parse (str "null") = some Json.null ∧
    load (some (str "null")) = Json.null ∧
    load (some (str "null")) ≠ Json.arr [] := by
  refine ⟨?_, rfl, rfl, ?_⟩
  · intro l hl
    have h0 := congrArg List.head? hl
    simp [JSON_stringify] at h0
    exact absurd h0 (by decide)
  · intro hl
    have h1 : load (some (str "null")) = Json.null := rfl
    rw [h1] at hl
    cases hl

/-- C4, amended: `load` is total; it gives the empty array when the key is
missing, when the slot holds the empty string and when `JSON.parse` rejects
the text; when `JSON.parse` accepts a non-empty text, `load` gives the parsed
value, whatever its shape, and `JSON.parse` accepts every text that parses
completely with some fuel. -/
theorem load_spec :
    load none = Json.arr [] ∧
    load (some []) = Json.arr [] ∧
    (∀ raw, JSON_parse raw = none → load (some raw) = Json.arr []) ∧
    (∀ raw v, raw ≠ [] → JSON_parse raw = some v → load (some raw) = v) ∧
    (∀ raw n v r, raw ≠ [] → parseValue n raw = some (v, r) → skipWs r = [] →
      load (some raw) = v) := by
  have h4 : ∀ raw v, raw ≠ [] → JSON_parse raw = some v → load (some raw) = v := by
    intro raw v hr h
    unfold load
    simp [hr, h]
  refine ⟨rfl, rfl, ?_, h4, ?_⟩
  · intro raw h
    unfold load
    by_cases hr : raw = [] <;> simp [hr, h]
  · intro raw n v r hr h hws
    exact h4 raw v hr (JSON_parse_of_fuel raw n v r h hws)

/-- Witness of C4 amended: a truncated text is rejected and loads as the empty
array; a text holding a number in an array loads as that array. -/
theorem load_spec_witness :
    JSON_parse (str "[\x7b\"id\":") = none ∧
    load (some (str "[\x7b\"id\":")) = Json.arr [] ∧
    load (some (str "[1]")) = Json.arr [Json.num (str "1")] :=
  ⟨rfl, load_spec.2.2.1 (str "[\x7b\"id\":") rfl,
   load_spec.2.2.2.1 (str "[1]") (Json.arr [Json.num (str "1")]) (by decide) rfl⟩


end Todo
